import Mathlib

/-!
Shallow embedding of the TemplTracker donation tracker core:
the donor aggregator, search transliteration, permission evaluator and
category-ordering logic from the frontend (`groupDonationsByName`,
`transliterateHindiToEnglish`, `canUserAdd` …, `moveCategoryUp/Down`),
and the Express request handlers from `server.js`.
-/

namespace TemplTracker

/-! ## Donation records as the frontend aggregator sees them

A `DonationRecord` models one element of `donationsCache`: a donation as
returned by `GET /api/donations` (populated).  `amount` is `none` when the
JSON field is `null`/absent; the code uses `d.amount || 0`.  `date` is the
epoch-millisecond value of `new Date(d.date)` (date comparisons in the code
are `new Date(a) > new Date(b)`).  `categoryId` is the resolved category
identity `d.categoryId?._id || d.categoryId` (`none` when the reference is
null/undefined, in which case the code falls back to the literal
`"unknown"`). -/
structure DonationRecord where
  id : String
  donorName : String
  amount : Option Int
  date : Nat
  categoryId : Option String
  notes : String
  status : String
deriving Repr, DecidableEq

/-- `s.trim()`: drop leading and trailing whitespace. -/
def jsTrim (s : String) : String :=
  String.mk (((s.toList.dropWhile Char.isWhitespace).reverse.dropWhile Char.isWhitespace).reverse)

/-- `s.toLowerCase()`.  (`Char.toLower` agrees with JS on the ASCII and
Devanagari characters the app handles: Devanagari has no case.) -/
def jsToLower (s : String) : String :=
  String.mk (s.toList.map Char.toLower)

/-- `d.amount || 0`: a missing amount counts as 0. -/
def amtOf (d : DonationRecord) : Int := d.amount.getD 0

/-- `d.categoryId?._id || d.categoryId || 'unknown'`: the category part of the
grouping key, with unresolved references keyed as the literal "unknown". -/
def recCat (d : DonationRecord) : String := d.categoryId.getD "unknown"

/-- `d.donorName.trim().toLowerCase() + '_' + (catId || 'unknown')`:
the composite grouping key of `groupDonationsByName`.
-/
def donKey (d : DonationRecord) : String :=
  jsToLower (jsTrim d.donorName) ++ "_" ++ recCat d

/-- One entry of a donor group's `history` array. -/
structure HistoryEntry where
  amount : Int
  date : Nat
  notes : String
deriving Repr, DecidableEq

/-- A `DonorAggregate` as built by `groupDonationsByName`. -/
structure DonorGroup where
  donorName : String
  amount : Int
  history : List HistoryEntry
  categoryId : Option String
  date : Nat
  notes : String
deriving Repr, DecidableEq

/-- The object created when a key is first seen:
`donorName: d.donorName.trim(), amount: 0, history: [], categoryId: d.categoryId,
date: d.date, notes: d.notes`. -/
def initGroup (d : DonationRecord) : DonorGroup :=
  { donorName := jsTrim d.donorName
    amount := 0
    history := []
    categoryId := d.categoryId
    date := d.date
    notes := d.notes }

/-- The body of the `forEach`: `amount += (d.amount || 0)`, track the latest
date with a strict comparison, and push a history entry. -/
def mergeInto (g : DonorGroup) (d : DonationRecord) : DonorGroup :=
  { g with
    amount := g.amount + amtOf d
    date := if d.date > g.date then d.date else g.date
    history := g.history ++ [⟨amtOf d, d.date, d.notes⟩] }

/-- One step of the grouping loop on the association list that models the
`grouped` JS object (string keys iterate in insertion order: an existing key
is updated in place, a new key is appended at the end). -/
def upsert (d : DonationRecord) : List (String × DonorGroup) → List (String × DonorGroup)
  | [] => [(donKey d, mergeInto (initGroup d) d)]
  | (k, g) :: rest =>
    if k = donKey d then (k, mergeInto g d) :: rest
    else (k, g) :: upsert d rest

/-- `groupDonationsByName`: fold the records through `upsert` and return
`Object.values(grouped)`. -/
def groupDonationsByName (donations : List DonationRecord) : List DonorGroup :=
  (donations.foldl (fun gs d => upsert d gs) []).map (·.2)

/-- `donationsCache.filter(d => d.status === 'approved')` (step 1 of
`renderPublicView`). -/
def approvedOnly (donations : List DonationRecord) : List DonationRecord :=
  donations.filter (·.status == "approved")

/-- Category identity of an aggregate, with the same "unknown" fallback used
for records. -/
def catOfG (g : DonorGroup) : String := g.categoryId.getD "unknown"

/-- Sum of `DonorAggregate.total` over the aggregates of category `c`. -/
def donorTotalsForCategory (c : String) (gs : List DonorGroup) : Int :=
  ((gs.filter (fun g => catOfG g == c)).map (·.amount)).sum

/-- Sum of approved `DonationRecord` amounts of category `c` (missing
amounts counted as 0). -/
def approvedSumForCategory (c : String) (ds : List DonationRecord) : Int :=
  (((approvedOnly ds).filter (fun d => recCat d == c)).map amtOf).sum

/-- True when the string has no underscore.  Category identities are Mongo
ObjectIds (hex digits) or the literal "unknown", so they never contain the
`'_'` the grouping key uses as separator. -/
def noUnderscore (s : String) : Bool := s.toList.all (fun c => c != '_')

/-! ## Search: transliteration fallback

`transliterateHindiToEnglish` runs `result.replace(new RegExp(hindi,'g'), eng)`
for each table entry, in the insertion order of the object literal (single
characters first, whole words last), then lowercases.  None of the table keys
contains a regex metacharacter, so each pass is a literal global (left to
right, non-overlapping, no rescan of the replacement) find/replace, modelled
by `replAll` on the character list. -/

/-- Does `pat` occur at the head of `s`? -/
def leadsWith : List Char → List Char → Bool
  | [], _ => true
  | _ :: _, [] => false
  | a :: as, b :: bs => a == b && leadsWith as bs

/-- The scanning loop of a global literal find/replace, left to right, the
replacement not rescanned.  `fuel` only bounds the recursion: every step
consumes at least one input character, so any `fuel ≥ s.length` yields the
untruncated result. -/
def replGo (pat rep : List Char) : Nat → List Char → List Char
  | _, [] => []
  | 0, s => s
  | fuel + 1, c :: rest =>
    if leadsWith pat (c :: rest) ∧ pat.length ≥ 1 then
      rep ++ replGo pat rep fuel (rest.drop (pat.length - 1))
    else
      c :: replGo pat rep fuel rest

/-- Global literal find/replace (the semantics of `String.prototype.replace`
with a global literal regex). -/
def replAll (pat rep s : List Char) : List Char := replGo pat rep s.length s

/-- Does `pat` occur anywhere in `s` (JS `String.prototype.includes`)? -/
def hasSub (s pat : List Char) : Bool :=
  match s with
  | [] => leadsWith pat []
  | _ :: rest => leadsWith pat s || hasSub rest pat

/-- `a.includes(b)` on strings. -/
def jsIncludes (s pat : String) : Bool := hasSub s.toList pat.toList

/-- The fixed substitution table of `transliterateHindiToEnglish`, in the
insertion order of the object literal. -/
def translitTable : List (String × String) :=
  [("अ", "a"), ("आ", "aa"), ("इ", "i"), ("ई", "ee"), ("उ", "u"), ("ऊ", "oo"),
   ("ए", "e"), ("ऐ", "ai"), ("ओ", "o"), ("औ", "au"), ("अं", "an"), ("अः", "ah"),
   ("क", "k"), ("ख", "kh"), ("ग", "g"), ("घ", "gh"), ("ङ", "ng"),
   ("च", "ch"), ("छ", "chh"), ("ज", "j"), ("झ", "jh"), ("ञ", "ny"),
   ("ट", "t"), ("ठ", "th"), ("ड", "d"), ("ढ", "dh"), ("ण", "n"),
   ("त", "t"), ("थ", "th"), ("द", "d"), ("ध", "dh"), ("न", "n"),
   ("प", "p"), ("फ", "ph"), ("ब", "b"), ("भ", "bh"), ("म", "m"),
   ("य", "y"), ("र", "r"), ("ल", "l"), ("व", "v"), ("श", "sh"),
   ("ष", "sh"), ("स", "s"), ("ह", "h"),
   ("ा", "a"), ("ि", "i"), ("ी", "ee"), ("ु", "u"), ("ू", "oo"),
   ("े", "e"), ("ै", "ai"), ("ो", "o"), ("ौ", "au"),
   ("ं", "n"), ("ः", "h"), ("्", ""), ("ृ", "ri"),
   ("श्री", "shri"), ("राम", "ram"), ("कृष्ण", "krishna"), ("हनुमान", "hanuman"),
   ("प्रसाद", "prasad"), ("कुमार", "kumar"), ("सिंह", "singh"), ("शर्मा", "sharma"),
   ("गुप्ता", "gupta"), ("यादव", "yadav"), ("पाण्डेय", "pandey"), ("मिश्रा", "mishra")]

/-- `transliterateHindiToEnglish(text)`: apply every table entry in table
order as a global replace, then `toLowerCase()`. -/
def transliterateHindiToEnglish (text : String) : String :=
  jsToLower (String.mk (translitTable.foldl
      (fun res e => replAll e.1.toList e.2.toList res) text.toList))

/-- The free-text predicate of `renderPublicView` (step 3): the lowercase
donor name contains the lowercased term, or the term is contained in
`donorLower + ' ' + transliterateHindiToEnglish(donorName)`. -/
def matchesSearch (searchTerm donorName : String) : Bool :=
  let term := jsToLower searchTerm
  let donorLower := jsToLower donorName
  if jsIncludes donorLower term then true
  else jsIncludes (donorLower ++ " " ++ transliterateHindiToEnglish donorName) term

/-! ## Permission evaluator (frontend `canUser*` functions) -/

/-- The `permissions` object of a sub-admin account. -/
structure Permissions where
  canAddDonation : Bool
  canEditDonation : Bool
  canDeleteDonation : Bool
  canManageCategory : Bool
  assignedCategories : List String
deriving Repr, DecidableEq

/-- A logged-in user (`currentUser` when non-null): the main admin, or a
sub-admin carrying its permission set. -/
inductive User
  | admin
  | subadmin (permissions : Permissions)
deriving Repr, DecidableEq

/-- `canUserAdd()`: deny without a user, allow the admin, else the flag. -/
def canUserAdd : Option User → Bool
  | none => false
  | some .admin => true
  | some (.subadmin p) => p.canAddDonation

/-- `canUserEdit()`. -/
def canUserEdit : Option User → Bool
  | none => false
  | some .admin => true
  | some (.subadmin p) => p.canEditDonation

/-- `canUserDelete()`. -/
def canUserDelete : Option User → Bool
  | none => false
  | some .admin => true
  | some (.subadmin p) => p.canDeleteDonation

/-- `canUserManageCategory()`. -/
def canUserManageCategory : Option User → Bool
  | none => false
  | some .admin => true
  | some (.subadmin p) => p.canManageCategory

/-- `canUserAccessCategory(categoryId)`:
`!perms.assignedCategories?.length || perms.assignedCategories.includes(id)`. -/
def canUserAccessCategory : Option User → String → Bool
  | none, _ => false
  | some .admin, _ => true
  | some (.subadmin p), categoryId =>
    p.assignedCategories.isEmpty || p.assignedCategories.contains categoryId

/-! ## Category ordering -/

/-- A category document: identity, display name, integer order key. -/
structure Category where
  id : String
  name : String
  order : Int
deriving Repr, DecidableEq

instance : DecidableRel (fun a b : Category => a.order ≤ b.order) :=
  fun a b => inferInstanceAs (Decidable (a.order ≤ b.order))

/-- `[...categoriesCache].sort((a, b) => a.order - b.order)`: a stable sort
ascending by order key. -/
def sortByOrder (cats : List Category) : List Category :=
  List.insertionSort (fun a b => a.order ≤ b.order) cats

instance : IsTotal Category (fun a b => a.order ≤ b.order) :=
  ⟨fun a b => Int.le_total a.order b.order⟩

instance : IsTrans Category (fun a b => a.order ≤ b.order) :=
  ⟨fun _ _ _ h₁ h₂ => le_trans h₁ h₂⟩

instance : IsAntisymm Category (fun a b => a.order < b.order) :=
  ⟨fun _ _ h₁ h₂ => absurd (lt_trans h₁ h₂) (lt_irrefl _)⟩

/-- The loop of the `PUT /api/categories/reorder` handler:
`for (const item of orders) await Category.findByIdAndUpdate(item.id, { order: item.order })`. -/
def applyOrders (cats : List Category) (orders : List (String × Int)) : List Category :=
  orders.foldl
    (fun cs item => cs.map (fun c => if c.id == item.1 then { c with order := item.2 } else c))
    cats

/-- `moveCategoryUp(id)` composed with the reorder handler's loop: sort the
cache, find the index of `id`; `index <= 0` (not found, or already first) is
a no-op; otherwise swap the order keys of the element and its predecessor.
(`findIdx? = none` models JS `findIndex` returning -1.) -/
def moveCategoryUp (cats : List Category) (cid : String) : List Category :=
  let sorted := sortByOrder cats
  match sorted.findIdx? (fun c => c.id == cid) with
  | none => cats
  | some 0 => cats
  | some (i + 1) =>
    match sorted[i]?, sorted[i + 1]? with
    | some prev, some cur =>
      applyOrders cats [(cur.id, prev.order), (prev.id, cur.order)]
    | _, _ => cats

/-- `moveCategoryDown(id)` composed with the reorder handler's loop:
`index >= sortedCategories.length - 1` is a no-op; otherwise swap the order
keys of the element and its successor.  (On an unknown id the JS code throws
on `sortedCategories[-1]._id` before issuing any request, so the state is
also unchanged, modelled by the `none` branch.) -/
def moveCategoryDown (cats : List Category) (cid : String) : List Category :=
  let sorted := sortByOrder cats
  match sorted.findIdx? (fun c => c.id == cid) with
  | none => cats
  | some i =>
    if sorted.length ≤ i + 1 then cats
    else
      match sorted[i]?, sorted[i + 1]? with
      | some cur, some next =>
        applyOrders cats [(cur.id, next.order), (next.id, cur.order)]
      | _, _ => cats

/-! ## Server model (`server.js` request handlers)

Persisted donation documents keep the raw optional fields of the request
body (`date` as the raw string the client sent). -/

structure DonationDoc where
  id : String
  donorName : String
  amount : Option Int
  date : Option String
  categoryId : Option String
  notes : String
  status : String
deriving Repr, DecidableEq

/-- An activity-log entry as written by `createLog`. -/
structure LogEntry where
  action : String
  entity : String
  entityId : Option String
  details : String
  user : String
  userType : String
deriving Repr, DecidableEq

/-- The stored state a request handler can touch. -/
structure ServerState where
  donations : List DonationDoc
  categories : List Category
  logs : List LogEntry
deriving Repr, DecidableEq

/-- The identification headers `createLog` reads
(`req.headers['x-user'] || 'admin'`, `req.headers['x-user-type'] || 'admin'`). -/
structure ReqHeaders where
  user : Option String
  userType : Option String
deriving Repr, DecidableEq

/-- `${x}` on a possibly missing number. -/
def jsNumStr : Option Int → String
  | some n => toString n
  | none => "undefined"

/-- `createLog(req, action, entity, entityId, details)`: append one entry. -/
def createLog (st : ServerState) (h : ReqHeaders) (action entity : String)
    (entityId : Option String) (details : String) : ServerState :=
  { st with
    logs := st.logs ++
      [⟨action, entity, entityId, details, h.user.getD "admin", h.userType.getD "admin"⟩] }

/-- The JSON body of `POST /api/donations` / `PUT /api/donations/:id`
(absent fields are `none`). -/
structure DonationBody where
  donorName : Option String
  amount : Option Int
  date : Option String
  categoryId : Option String
  notes : Option String
  status : Option String
deriving Repr, DecidableEq

/-- `!req.body.amount` (undefined, null and 0 are falsy). -/
def falsyAmount : Option Int → Bool
  | none => true
  | some n => n == 0

/-- `!req.body.date` (undefined, null and the empty string are falsy). -/
def falsyDate : Option String → Bool
  | none => true
  | some s => s == ""

/-- `POST /api/donations`: sub-admins get `status = 'pending'` and must send
a truthy amount and date (else 400, nothing stored); everyone else gets
`status = 'approved'`.  Saving applies the schema defaults
(`amount: 0`, `date: Date.now`, `notes: ''`); a missing `donorName` or
`categoryId` fails schema validation (400, nothing stored).  `newId` is the
ObjectId Mongo assigns to the created document. -/
def createDonationHandler (st : ServerState) (h : ReqHeaders) (body : DonationBody)
    (newId : String) : ServerState × Nat :=
  let userType := h.userType.getD "admin"
  if userType == "subadmin" && (falsyAmount body.amount || falsyDate body.date) then
    (st, 400)
  else
    let status := if userType == "subadmin" then "pending" else "approved"
    match body.donorName, body.categoryId with
    | some nm, some cat =>
      let doc : DonationDoc :=
        ⟨newId, nm, some (body.amount.getD 0), some (body.date.getD "now"),
         some cat, body.notes.getD "", status⟩
      let st₁ := { st with donations := st.donations ++ [doc] }
      (createLog st₁ h "ADD" "DONATION" (some newId)
        ("Added donation (" ++ status ++ "): " ++ nm ++ " - ₹" ++ jsNumStr body.amount), 201)
    | _, _ => (st, 400)

/-- `findByIdAndUpdate(id, req.body)`: set every field present in the body. -/
def applyUpdate (d : DonationDoc) (b : DonationBody) : DonationDoc :=
  { d with
    donorName := b.donorName.getD d.donorName
    amount := match b.amount with | some a => some a | none => d.amount
    date := match b.date with | some s => some s | none => d.date
    categoryId := match b.categoryId with | some c => some c | none => d.categoryId
    notes := b.notes.getD d.notes
    status := b.status.getD d.status }

/-- `PUT /api/donations/:id`: update the document with the request body
wholesale (404 and no change when the id is unknown), then log the edit. -/
def editDonationHandler (st : ServerState) (h : ReqHeaders) (id : String)
    (b : DonationBody) : ServerState × Nat :=
  match st.donations.find? (·.id == id) with
  | none => (st, 404)
  | some old =>
    let st₁ :=
      { st with donations := st.donations.map (fun d => if d.id == id then applyUpdate d b else d) }
    (createLog st₁ h "EDIT" "DONATION" (some id) ("Edited donation: " ++ old.donorName), 200)

/-- `PUT /api/donations/:id/approve`: set `status = 'approved'` and log. -/
def approveDonationHandler (st : ServerState) (h : ReqHeaders) (id : String) :
    ServerState × Nat :=
  match st.donations.find? (·.id == id) with
  | none => (st, 404)
  | some d =>
    let st₁ :=
      { st with donations :=
          st.donations.map (fun x => if x.id == id then { x with status := "approved" } else x) }
    (createLog st₁ h "APPROVE" "DONATION" (some id)
      ("Approved donation: " ++ d.donorName ++ " - ₹" ++ jsNumStr d.amount), 200)

/-- `DELETE /api/donations/:id`: log, then delete (404 and no change when the
id is unknown).  The handler never consults any permission information. -/
def deleteDonationHandler (st : ServerState) (h : ReqHeaders) (id : String) :
    ServerState × Nat :=
  match st.donations.find? (·.id == id) with
  | none => (st, 404)
  | some d =>
    let st₁ := createLog st h "DELETE" "DONATION" (some d.id)
      ("Deleted donation: " ++ d.donorName ++ " - ₹" ++ jsNumStr d.amount)
    ({ st₁ with donations := st₁.donations.filter (fun x => x.id != id) }, 200)

/-! ## Express routing (registration order of `server.js`) -/

/-- A path-pattern segment: a literal, or an `:name` parameter. -/
inductive Seg
  | lit (s : String)
  | param (name : String)
deriving Repr, DecidableEq

/-- Names for the API routes of `server.js`. -/
inductive RouteId
  | login
  | getDonations | createDonation | updateDonation | approveDonation | deleteDonation
  | getCategories | createCategory | updateCategory | deleteCategory | reorderCategories
  | getSubadmins | createSubadmin | updateSubadmin | deleteSubadmin
  | getSettings | updateSettings | changePassword
  | getLogs | getStats
  | getCommunity | getCommunityAdmin | createPost | replyPost | deletePost
  | toggleCommunity | toggleShowDates
deriving Repr, DecidableEq

/-- The route table of `server.js`, in registration order.  In particular
`PUT /api/categories/:id` is registered before `PUT /api/categories/reorder`. -/
def routes : List (String × List Seg × RouteId) :=
  [("POST",   [.lit "api", .lit "auth", .lit "login"], .login),
   ("GET",    [.lit "api", .lit "donations"], .getDonations),
   ("POST",   [.lit "api", .lit "donations"], .createDonation),
   ("PUT",    [.lit "api", .lit "donations", .param "id"], .updateDonation),
   ("PUT",    [.lit "api", .lit "donations", .param "id", .lit "approve"], .approveDonation),
   ("DELETE", [.lit "api", .lit "donations", .param "id"], .deleteDonation),
   ("GET",    [.lit "api", .lit "categories"], .getCategories),
   ("POST",   [.lit "api", .lit "categories"], .createCategory),
   ("PUT",    [.lit "api", .lit "categories", .param "id"], .updateCategory),
   ("DELETE", [.lit "api", .lit "categories", .param "id"], .deleteCategory),
   ("PUT",    [.lit "api", .lit "categories", .lit "reorder"], .reorderCategories),
   ("GET",    [.lit "api", .lit "subadmins"], .getSubadmins),
   ("POST",   [.lit "api", .lit "subadmins"], .createSubadmin),
   ("PUT",    [.lit "api", .lit "subadmins", .param "id"], .updateSubadmin),
   ("DELETE", [.lit "api", .lit "subadmins", .param "id"], .deleteSubadmin),
   ("GET",    [.lit "api", .lit "settings"], .getSettings),
   ("PUT",    [.lit "api", .lit "settings"], .updateSettings),
   ("PUT",    [.lit "api", .lit "settings", .lit "password"], .changePassword),
   ("GET",    [.lit "api", .lit "logs"], .getLogs),
   ("GET",    [.lit "api", .lit "stats"], .getStats),
   ("GET",    [.lit "api", .lit "community"], .getCommunity),
   ("GET",    [.lit "api", .lit "community", .lit "admin"], .getCommunityAdmin),
   ("POST",   [.lit "api", .lit "community"], .createPost),
   ("POST",   [.lit "api", .lit "community", .param "id", .lit "reply"], .replyPost),
   ("DELETE", [.lit "api", .lit "community", .param "id"], .deletePost),
   ("PUT",    [.lit "api", .lit "settings", .lit "community"], .toggleCommunity),
   ("PUT",    [.lit "api", .lit "settings", .lit "showDates"], .toggleShowDates)]

/-- Match a pattern against path segments, collecting parameter bindings. -/
def matchSegs : List Seg → List String → Option (List (String × String))
  | [], [] => some []
  | .lit s :: ps, a :: as => if a == s then matchSegs ps as else none
  | .param n :: ps, a :: as => (matchSegs ps as).map (fun binds => (n, a) :: binds)
  | _, _ => none

/-- First matching route wins (Express dispatches in registration order). -/
def findRoute : List (String × List Seg × RouteId) → String → List String →
    Option (RouteId × List (String × String))
  | [], _, _ => none
  | (m, pat, rid) :: rest, method, path =>
    if m == method then
      match matchSegs pat path with
      | some binds => some (rid, binds)
      | none => findRoute rest method path
    else findRoute rest method path

/-- Dispatch a request against the `server.js` route table. -/
def dispatch (method : String) (path : List String) :
    Option (RouteId × List (String × String)) :=
  findRoute routes method path

/-- Is `c` one of `0-9 a-f A-F`? -/
def isHexChar (c : Char) : Bool :=
  c.isDigit || ('a' ≤ c && c ≤ 'f') || ('A' ≤ c && c ≤ 'F')

/-- `mongoose.isValidObjectId`: a 24-character hex string (or a 12-character
byte string).  Anything else makes `findById` throw a `CastError`. -/
def isValidObjectId (s : String) : Bool :=
  s.length == 12 || (s.length == 24 && s.toList.all isHexChar)

/-- The JSON body of `PUT /api/categories/:id`. -/
structure CategoryBody where
  name : Option String
  order : Option Int
deriving Repr, DecidableEq

/-- `PUT /api/categories/:id`: `findById`/`findByIdAndUpdate` throw a
`CastError` on a malformed ObjectId, which the handler catches as a 400
before logging or changing anything; an unknown id is a 404; otherwise the
body's fields are applied and the edit logged. -/
def updateCategoryHandler (st : ServerState) (h : ReqHeaders) (id : String)
    (body : CategoryBody) : ServerState × Nat :=
  if !isValidObjectId id then (st, 400)
  else
    match st.categories.find? (·.id == id) with
    | none => (st, 404)
    | some old =>
      let newCat : Category :=
        { old with name := body.name.getD old.name, order := body.order.getD old.order }
      let st₁ :=
        { st with categories :=
            st.categories.map (fun c => if c.id == id then newCat else c) }
      (createLog st₁ h "EDIT" "CATEGORY" (some id)
        ("Edited category: " ++ old.name ++ " → " ++ newCat.name), 200)

/-! ## Helper notions used by the statements and proofs -/

/-- The part of a grouping key after its last underscore.  When every
category identity is underscore-free, this recovers the category part of
`donKey` (the donor-name part may itself contain underscores). -/
def keyCat (s : String) : String :=
  String.mk ((s.toList.reverse.takeWhile (fun c => c != '_')).reverse)

/-- Sum of group totals over the entries of the grouping association list
whose aggregate belongs to category `c`. -/
def entriesTotal (c : String) (gs : List (String × DonorGroup)) : Int :=
  ((gs.filter (fun e => catOfG e.2 == c)).map (·.2.amount)).sum

/-- Invariant of the grouping state: each entry's key ends in its aggregate's
category. -/
def GoodState (gs : List (String × DonorGroup)) : Prop :=
  ∀ e ∈ gs, keyCat e.1 = catOfG e.2

/-- A donation-mutating request: an edit (`PUT /api/donations/:id`) or an
approval (`PUT /api/donations/:id/approve`). -/
inductive DonationOp
  | edit (id : String) (body : DonationBody) (h : ReqHeaders)
  | approve (id : String) (h : ReqHeaders)
deriving Repr

/-- The state after one donation-mutating request. -/
def applyOp (st : ServerState) : DonationOp → ServerState
  | .edit id body h => (editDonationHandler st h id body).1
  | .approve id h => (approveDonationHandler st h id).1

/-- An edit whose body does not set `status` to `'pending'` (the frontend's
edit form never sends a `status` field at all). -/
def benignOp : DonationOp → Bool
  | .edit _ body _ => body.status != some "pending"
  | .approve _ _ => true

/-! ## Theorems -/

/-- C3: the permission evaluator is a pure function of (actor, action): an
admin actor is allowed every action; a sub-admin is allowed
add/edit/delete-donation and manage-category iff the corresponding flag is
true, and access-category(id) iff its assignedCategories list is empty or
contains id; with no authenticated actor every action is denied. -/
theorem permission_evaluator_spec :
    (canUserAdd (some .admin) = true ∧ canUserEdit (some .admin) = true ∧
     canUserDelete (some .admin) = true ∧ canUserManageCategory (some .admin) = true ∧
     ∀ cid, canUserAccessCategory (some .admin) cid = true)
  ∧ (∀ p : Permissions,
      canUserAdd (some (.subadmin p)) = p.canAddDonation ∧
      canUserEdit (some (.subadmin p)) = p.canEditDonation ∧
      canUserDelete (some (.subadmin p)) = p.canDeleteDonation ∧
      canUserManageCategory (some (.subadmin p)) = p.canManageCategory ∧
      ∀ cid, (canUserAccessCategory (some (.subadmin p)) cid = true ↔
        p.assignedCategories = [] ∨ cid ∈ p.assignedCategories))
  ∧ (canUserAdd none = false ∧ canUserEdit none = false ∧
     canUserDelete none = false ∧ canUserManageCategory none = false ∧
     ∀ cid, canUserAccessCategory none cid = false) := by
  refine ⟨⟨rfl, rfl, rfl, rfl, fun _ => rfl⟩, fun p => ⟨rfl, rfl, rfl, rfl, fun cid => ?_⟩,
    rfl, rfl, rfl, rfl, fun _ => rfl⟩
  simp [canUserAccessCategory, List.isEmpty_iff]

/-- C4: the aggregator groups by lowercase-trimmed donor name plus category
identity (unresolved references keyed as the literal "unknown"); the records
⟨"Ram", cat 1, 500⟩ and ⟨"ram", cat 1, 300⟩ form exactly one aggregate with
total 800 and a two-entry history; and two records land in one group exactly
when their composite keys agree. -/
theorem groupDonations_composite_key :
    ((groupDonationsByName
        [⟨"d1", "Ram", some 500, 0, some "1", "", "approved"⟩,
         ⟨"d2", "ram", some 300, 0, some "1", "", "approved"⟩]).map
        (fun g => (g.donorName, g.amount, g.history.length)) = [("Ram", 800, 2)])
  ∧ (∀ d₁ d₂ : DonationRecord,
      (groupDonationsByName [d₁, d₂]).length = if donKey d₁ = donKey d₂ then 1 else 2)
  ∧ donKey ⟨"d3", "Ram", some 100, 0, none, "", "approved"⟩ = "ram_unknown" := by
  refine ⟨by decide, fun d₁ d₂ => ?_, by decide⟩
  by_cases h : donKey d₁ = donKey d₂ <;>
    simp [groupDonationsByName, upsert, h]

/-- C5 (code bug): the transliteration loop applies the single-character
table entries before the word entry "श्री"→"shri" (object-literal insertion
order), so "श्री राम" transliterates to "shree ram" and the search term
"shri" does NOT match it, although the table does contain "श्री"→"shri" and
the code comment says the word entries are applied first. -/
theorem search_shri_does_not_match :
    transliterateHindiToEnglish "श्री राम" = "shree ram"
  ∧ matchesSearch "shri" "श्री राम" = false
  ∧ ((translitTable.filter (fun e => e.1 == "श्री")).map (·.2)) = ["shri"] := by
  refine ⟨by decide, by decide, by decide⟩

/-- C2 (code bug): `DELETE /api/donations/:id` never consults the permission
evaluator: for an actor the evaluator denies (a sub-admin with
canDeleteDonation = false) the server still deletes the donation, answers
200 and records a success log entry. -/
theorem deleteDonation_ignores_permissions :
    canUserDelete (some (.subadmin ⟨false, false, false, false, []⟩)) = false
  ∧ (deleteDonationHandler
        ⟨[⟨"d1", "Test Donor", some 100, some "2024-01-01", some "c1", "", "approved"⟩], [], []⟩
        ⟨some "sub1", some "subadmin"⟩ "d1").2 = 200
  ∧ (deleteDonationHandler
        ⟨[⟨"d1", "Test Donor", some 100, some "2024-01-01", some "c1", "", "approved"⟩], [], []⟩
        ⟨some "sub1", some "subadmin"⟩ "d1").1.donations = []
  ∧ (deleteDonationHandler
        ⟨[⟨"d1", "Test Donor", some 100, some "2024-01-01", some "c1", "", "approved"⟩], [], []⟩
        ⟨some "sub1", some "subadmin"⟩ "d1").1.logs =
      [⟨"DELETE", "DONATION", some "d1", "Deleted donation: Test Donor - ₹100",
        "sub1", "subadmin"⟩] := by
  refine ⟨rfl, by decide, by decide, by decide⟩

/-- C9 counterexample: an approved donation is sent back to pending by a
single edit request whose body carries `status: 'pending'`
(`PUT /api/donations/:id` applies `req.body` wholesale). -/
theorem editDonation_reverts_approval :
    ((editDonationHandler
        ⟨[⟨"d1", "Donor", some 100, some "2024-01-01", some "c1", "", "approved"⟩], [], []⟩
        ⟨some "admin", some "admin"⟩ "d1"
        ⟨none, none, none, none, none, some "pending"⟩).1.donations.map (·.status)) =
      ["pending"] := by
  decide

/-- C10: because `PUT /api/categories/:id` is registered before
`PUT /api/categories/reorder`, dispatch sends every `PUT
/api/categories/reorder` request to the update-category handler with
id = "reorder"; that handler fails (CastError → 400) without touching any
state, so the reorder handler is unreachable and the frontend's
move-up/move-down swaps are never applied on the server. -/
theorem reorder_route_shadowed :
    dispatch "PUT" ["api", "categories", "reorder"] =
      some (.updateCategory, [("id", "reorder")])
  ∧ ∀ (st : ServerState) (h : ReqHeaders) (body : CategoryBody),
      updateCategoryHandler st h "reorder" body = (st, 400) := by
  refine ⟨by decide, fun st h body => ?_⟩
  have hv : isValidObjectId "reorder" = false := by decide
  simp [updateCategoryHandler, hv]

/-- C8: a sub-admin-created donation gets status pending and the request
requires a non-null amount and date — a missing amount or date is rejected
(400) with no record created — while an admin-created donation gets status
approved. -/
theorem createDonation_status_rules (st : ServerState) (h : ReqHeaders)
    (body : DonationBody) (newId : String) :
    (h.userType = some "subadmin" →
      ((body.amount = none ∨ body.date = none) →
        createDonationHandler st h body newId = (st, 400))
      ∧ ∀ d ∈ (createDonationHandler st h body newId).1.donations,
          d ∈ st.donations ∨ d.status = "pending")
  ∧ (h.userType.getD "admin" ≠ "subadmin" →
      ∀ d ∈ (createDonationHandler st h body newId).1.donations,
        d ∈ st.donations ∨ d.status = "approved") := by
  constructor
  · intro hsub
    constructor
    · intro hmiss
      unfold createDonationHandler
      rw [hsub]
      rcases hmiss with hm | hm <;> rw [hm] <;> simp [falsyAmount, falsyDate]
    · intro d hd
      simp only [createDonationHandler, hsub] at hd
      split at hd
      · exact Or.inl hd
      · split at hd
        · simp only [createLog, List.mem_append, List.mem_singleton] at hd
          rcases hd with hd | hd
          · exact Or.inl hd
          · subst hd
            exact Or.inr rfl
        · exact Or.inl hd
  · intro hadm d hd
    have hne : (h.userType.getD "admin" == "subadmin") = false := by
      simpa using hadm
    simp only [createDonationHandler, hne, Bool.false_and, Bool.false_eq_true,
      if_false, Bool.false_or] at hd
    split at hd
    · simp only [createLog, List.mem_append, List.mem_singleton] at hd
      rcases hd with hd | hd
      · exact Or.inl hd
      · subst hd
        simp [hne]
    · exact Or.inl hd

/-- Witness for C8: a sub-admin request without an amount is rejected with
the state unchanged, and an admin-created donation is stored approved. -/
theorem createDonation_status_rules_witness :
    (createDonationHandler ⟨[], [], []⟩ ⟨some "s", some "subadmin"⟩
        ⟨some "N", none, some "2024-01-01", some "c1", none, none⟩ "n1" = (⟨[], [], []⟩, 400))
  ∧ ∀ d ∈ (createDonationHandler ⟨[], [], []⟩ ⟨none, none⟩
        ⟨some "N", some 10, some "2024-01-01", some "c1", none, none⟩ "n1").1.donations,
      d ∈ ([] : List DonationDoc) ∨ d.status = "approved" :=
  ⟨((createDonation_status_rules ⟨[], [], []⟩ ⟨some "s", some "subadmin"⟩
      ⟨some "N", none, some "2024-01-01", some "c1", none, none⟩ "n1").1 rfl).1
      (Or.inl rfl),
   (createDonation_status_rules ⟨[], [], []⟩ ⟨none, none⟩
      ⟨some "N", some 10, some "2024-01-01", some "c1", none, none⟩ "n1").2
      (by decide)⟩

/-! ### Conservation of totals (C1) -/

/-- `takeWhile` stops exactly at the first failing element. -/
theorem takeWhile_append_stop (p : Char → Bool) (l₁ l₂ : List Char) (x : Char)
    (h : ∀ a ∈ l₁, p a = true) (hx : p x = false) :
    (l₁ ++ x :: l₂).takeWhile p = l₁ := by
  induction l₁ with
  | nil => simp [List.takeWhile_cons, hx]
  | cons a as ih =>
    simp only [List.cons_append, List.takeWhile_cons, h a (List.mem_cons_self a as), if_true]
    rw [ih (fun b hb => h b (List.mem_cons_of_mem a hb))]

/-- The key part after the last underscore is the appended category when the
category contains no underscore. -/
theorem keyCat_append (n c : String) (h : noUnderscore c = true) :
    keyCat (n ++ "_" ++ c) = c := by
  have hall : ∀ a ∈ c.data.reverse, (a != '_') = true := by
    intro a ha
    exact (List.all_eq_true.mp h) a (List.mem_reverse.mp ha)
  unfold keyCat
  have hdata : (n ++ "_" ++ c).toList = n.data ++ '_' :: c.data := by
    show (n ++ "_" ++ c).data = _
    rw [String.data_append, String.data_append, List.append_assoc]
    rfl
  rw [hdata, List.reverse_append, List.reverse_cons, List.append_assoc,
    List.singleton_append, takeWhile_append_stop _ _ _ '_' hall (by decide),
    List.reverse_reverse]

/-- The category part of a record's composite key is its resolved category. -/
theorem keyCat_donKey (d : DonationRecord) (h : noUnderscore (recCat d) = true) :
    keyCat (donKey d) = recCat d :=
  keyCat_append _ _ h

/-- Unfolding `entriesTotal` over a cons. -/
theorem entriesTotal_cons (c : String) (e : String × DonorGroup)
    (gs : List (String × DonorGroup)) :
    entriesTotal c (e :: gs) =
      (if catOfG e.2 == c then e.2.amount else 0) + entriesTotal c gs := by
  simp only [entriesTotal, List.filter_cons]
  split <;> simp

/-- `upsert` keeps the state invariant: every entry's key ends in its
aggregate's category. -/
theorem goodState_upsert (d : DonationRecord) (gs : List (String × DonorGroup))
    (hgood : GoodState gs) (hd : noUnderscore (recCat d) = true) :
    GoodState (upsert d gs) := by
  induction gs with
  | nil =>
    intro e he
    simp only [upsert, List.mem_singleton] at he
    subst he
    exact keyCat_donKey d hd
  | cons hd' tl ih =>
    obtain ⟨k, g⟩ := hd'
    intro e he
    simp only [upsert] at he
    split at he
    · rcases List.mem_cons.mp he with h1 | h1
      · subst h1
        exact hgood (k, g) (List.mem_cons_self _ _)
      · exact hgood e (List.mem_cons_of_mem _ h1)
    · rcases List.mem_cons.mp he with h1 | h1
      · subst h1
        exact hgood (k, g) (List.mem_cons_self _ _)
      · exact ih (fun e' he' => hgood e' (List.mem_cons_of_mem _ he')) e h1

/-- Effect of one `upsert` on the per-category total. -/
theorem entriesTotal_upsert (c : String) (d : DonationRecord)
    (gs : List (String × DonorGroup)) (hgood : GoodState gs)
    (hd : noUnderscore (recCat d) = true) :
    entriesTotal c (upsert d gs) =
      entriesTotal c gs + (if recCat d == c then amtOf d else 0) := by
  induction gs with
  | nil =>
    have hcat : catOfG (mergeInto (initGroup d) d) = recCat d := rfl
    simp only [upsert, entriesTotal_cons, hcat]
    have hamt : (mergeInto (initGroup d) d).amount = amtOf d := by
      simp [mergeInto, initGroup]
    rw [hamt]
    simp only [entriesTotal]
    split <;> simp
  | cons e tl ih =>
    obtain ⟨k, g⟩ := e
    have hkey : keyCat k = catOfG g := hgood (k, g) (List.mem_cons_self _ _)
    simp only [upsert]
    split
    · next hk =>
      have hcat : catOfG g = recCat d := by
        rw [← hkey, hk]
        exact keyCat_donKey d hd
      have hcat2 : catOfG (mergeInto g d) = catOfG g := rfl
      rw [entriesTotal_cons, entriesTotal_cons, hcat2, hcat]
      have hamt : (mergeInto g d).amount = g.amount + amtOf d := rfl
      rw [hamt]
      split <;> ring
    · rw [entriesTotal_cons, entriesTotal_cons,
        ih (fun e' he' => hgood e' (List.mem_cons_of_mem _ he'))]
      ring

/-- Effect of the whole grouping fold on the per-category total. -/
theorem entriesTotal_foldl (c : String) (ds : List DonationRecord)
    (gs : List (String × DonorGroup)) (hgood : GoodState gs)
    (hds : ∀ d ∈ ds, noUnderscore (recCat d) = true) :
    entriesTotal c (ds.foldl (fun a d => upsert d a) gs) =
      entriesTotal c gs + ((ds.filter (fun d => recCat d == c)).map amtOf).sum := by
  induction ds generalizing gs with
  | nil => simp
  | cons d rest ih =>
    simp only [List.foldl_cons]
    rw [ih (upsert d gs)
        (goodState_upsert d gs hgood (hds d (List.mem_cons_self _ _)))
        (fun x hx => hds x (List.mem_cons_of_mem _ hx)),
      entriesTotal_upsert c d gs hgood (hds d (List.mem_cons_self _ _))]
    simp only [List.filter_cons]
    split
    · simp
      ring
    · simp

/-- Group-level totals coincide with entry-level totals. -/
theorem donorTotals_eq_entriesTotal (c : String) (gs : List (String × DonorGroup)) :
    donorTotalsForCategory c (gs.map (·.2)) = entriesTotal c gs := by
  induction gs with
  | nil => rfl
  | cons e tl ih =>
    simp only [List.map_cons, donorTotalsForCategory, List.filter_cons] at *
    rw [entriesTotal_cons, ← ih]
    split <;> simp

/-- C1: for every donation list, restricting to approved records and
aggregating, the sum of `DonorAggregate.total` over the aggregates of a
category equals the sum of the approved record amounts of that category
(missing amounts counted as 0).  The hypothesis restricts category
identities to underscore-free strings, which all Mongo ObjectIds (hex) and
the literal "unknown" are. -/
theorem donation_conservation (ds : List DonationRecord) (c : String)
    (h : ∀ d ∈ ds, noUnderscore (recCat d) = true) :
    donorTotalsForCategory c (groupDonationsByName (approvedOnly ds)) =
      approvedSumForCategory c ds := by
  have h' : ∀ d ∈ approvedOnly ds, noUnderscore (recCat d) = true :=
    fun d hd => h d (List.mem_of_mem_filter hd)
  rw [groupDonationsByName, donorTotals_eq_entriesTotal,
    entriesTotal_foldl c _ [] (fun e he => absurd he (List.not_mem_nil e)) h']
  simp [entriesTotal, approvedSumForCategory]

/-- Witness for C1 at a concrete donation list and category. -/
theorem donation_conservation_witness :
    donorTotalsForCategory "c1"
        (groupDonationsByName (approvedOnly
          [⟨"d1", "Ram", some 500, 10, some "c1", "", "approved"⟩,
           ⟨"d2", "ram ", some 300, 5, some "c1", "n", "approved"⟩,
           ⟨"d3", "Shyam", none, 7, some "c1", "", "approved"⟩,
           ⟨"d4", "Mohan", some 99, 7, some "c2", "", "approved"⟩,
           ⟨"d5", "Ram", some 1000, 9, some "c1", "", "pending"⟩,
           ⟨"d6", "Gita", some 11, 3, none, "", "approved"⟩])) =
      approvedSumForCategory "c1"
        [⟨"d1", "Ram", some 500, 10, some "c1", "", "approved"⟩,
         ⟨"d2", "ram ", some 300, 5, some "c1", "n", "approved"⟩,
         ⟨"d3", "Shyam", none, 7, some "c1", "", "approved"⟩,
         ⟨"d4", "Mohan", some 99, 7, some "c2", "", "approved"⟩,
         ⟨"d5", "Ram", some 1000, 9, some "c1", "", "pending"⟩,
         ⟨"d6", "Gita", some 11, 3, none, "", "approved"⟩] :=
  donation_conservation _ "c1" (by decide)

/-! ### Representative date and notes of a group (C7) -/

/-- C7 counterexample: two same-key records with notes "first" and "last"
aggregate to one group whose representative notes are "first" — the
first-seen notes, not the last-seen notes the claim states (the group's
`notes` field is set when the key is created and never updated). -/
theorem group_notes_not_last_seen :
    ((groupDonationsByName
        [⟨"d1", "Ram", some 500, 10, some "c1", "first", "approved"⟩,
         ⟨"d2", "Ram", some 300, 20, some "c1", "last", "approved"⟩]).map
        (fun g => (g.notes, g.history.map (·.notes)))) = [("first", ["first", "last"])] := by
  decide

/-- The invariant of one aggregate: nonempty history, representative date is
the maximum of the history dates, representative notes are the first
constituent's notes. -/
def GroupRep (g : DonorGroup) : Prop :=
  g.history ≠ [] ∧
  g.date = (g.history.map (·.date)).foldl max 0 ∧
  g.notes = (g.history.headD ⟨0, 0, ""⟩).notes

/-- `foldl max` over a snoc. -/
theorem foldl_max_append (l : List Nat) (a : Nat) :
    (l ++ [a]).foldl max 0 = max (l.foldl max 0) a := by
  rw [List.foldl_append]
  rfl

/-- `mergeInto` preserves the aggregate invariant. -/
theorem groupRep_mergeInto (g : DonorGroup) (d : DonationRecord) (hg : GroupRep g) :
    GroupRep (mergeInto g d) := by
  obtain ⟨hne, hdate, hnotes⟩ := hg
  refine ⟨by simp [mergeInto], ?_, ?_⟩
  · simp only [mergeInto, List.map_append, List.map_cons, List.map_nil]
    rw [foldl_max_append, ← hdate]
    rcases Nat.lt_or_ge g.date d.date with hlt | hge
    · simp [Nat.max_eq_right (Nat.le_of_lt hlt), hlt]
    · have : ¬ d.date > g.date := Nat.not_lt.mpr hge
      simp [this, Nat.max_eq_left hge]
  · obtain ⟨e, tl, he⟩ := List.exists_cons_of_ne_nil hne
    simp only [mergeInto, he, List.cons_append, List.headD_cons] at *
    exact hnotes

/-- A fresh aggregate satisfies the invariant. -/
theorem groupRep_init (d : DonationRecord) : GroupRep (mergeInto (initGroup d) d) := by
  refine ⟨by simp [mergeInto, initGroup], ?_, ?_⟩
  · simp [mergeInto, initGroup]
  · simp [mergeInto, initGroup]

/-- `upsert` preserves the invariant for every stored aggregate. -/
theorem groupRep_upsert (d : DonationRecord) (gs : List (String × DonorGroup))
    (hgs : ∀ e ∈ gs, GroupRep e.2) :
    ∀ e ∈ upsert d gs, GroupRep e.2 := by
  induction gs with
  | nil =>
    intro e he
    simp only [upsert, List.mem_singleton] at he
    subst he
    exact groupRep_init d
  | cons e₀ tl ih =>
    obtain ⟨k, g⟩ := e₀
    intro e he
    simp only [upsert] at he
    split at he
    · rcases List.mem_cons.mp he with h1 | h1
      · subst h1
        exact groupRep_mergeInto g d (hgs (k, g) (List.mem_cons_self _ _))
      · exact hgs e (List.mem_cons_of_mem _ h1)
    · rcases List.mem_cons.mp he with h1 | h1
      · subst h1
        exact hgs (k, g) (List.mem_cons_self _ _)
      · exact ih (fun e' he' => hgs e' (List.mem_cons_of_mem _ he')) e h1

/-- The grouping fold keeps the invariant for every stored aggregate. -/
theorem groupRep_foldl (ds : List DonationRecord) (gs : List (String × DonorGroup))
    (hgs : ∀ e ∈ gs, GroupRep e.2) :
    ∀ e ∈ ds.foldl (fun a d => upsert d a) gs, GroupRep e.2 := by
  induction ds generalizing gs with
  | nil => exact hgs
  | cons d rest ih =>
    simp only [List.foldl_cons]
    exact ih (upsert d gs) (groupRep_upsert d gs hgs)

/-- C7 amended: for every group produced by the aggregator, the
representative date is the maximum date among the constituents (the strictly
later date wins, so equal dates keep the first-seen value), and the
representative notes are the FIRST-seen constituent's notes (the code sets
`notes` at group creation and never updates it; the claim's "last-seen" is
what fails). -/
theorem group_representative_fields (ds : List DonationRecord) :
    ∀ g ∈ groupDonationsByName ds,
      g.history ≠ [] ∧
      g.date = (g.history.map (·.date)).foldl max 0 ∧
      g.notes = (g.history.headD ⟨0, 0, ""⟩).notes := by
  intro g hg
  simp only [groupDonationsByName, List.mem_map] at hg
  obtain ⟨e, he, rfl⟩ := hg
  exact groupRep_foldl ds [] (fun e' he' => absurd he' (List.not_mem_nil e')) e he

/-- Witness for C7's amended statement at a concrete aggregate. -/
theorem group_representative_fields_witness :
    (⟨"Ram", 800, [⟨500, 10, "first"⟩, ⟨300, 20, "last"⟩], some "c1", 20, "first"⟩ :
        DonorGroup).history ≠ [] ∧
    (⟨"Ram", 800, [⟨500, 10, "first"⟩, ⟨300, 20, "last"⟩], some "c1", 20, "first"⟩ :
        DonorGroup).date =
      (((⟨"Ram", 800, [⟨500, 10, "first"⟩, ⟨300, 20, "last"⟩], some "c1", 20, "first"⟩ :
        DonorGroup).history.map (·.date)).foldl max 0) ∧
    (⟨"Ram", 800, [⟨500, 10, "first"⟩, ⟨300, 20, "last"⟩], some "c1", 20, "first"⟩ :
        DonorGroup).notes =
      ((⟨"Ram", 800, [⟨500, 10, "first"⟩, ⟨300, 20, "last"⟩], some "c1", 20, "first"⟩ :
        DonorGroup).history.headD ⟨0, 0, ""⟩).notes :=
  group_representative_fields
    [⟨"d1", "Ram", some 500, 10, some "c1", "first", "approved"⟩,
     ⟨"d2", "Ram", some 300, 20, some "c1", "last", "approved"⟩]
    ⟨"Ram", 800, [⟨500, 10, "first"⟩, ⟨300, 20, "last"⟩], some "c1", 20, "first"⟩
    (by decide)

/-! ### One-way approval (C9) -/

/-- One benign operation keeps "the tracked donation is not pending". -/
theorem applyOp_preserves_not_pending (st : ServerState) (op : DonationOp) (id : String)
    (hben : benignOp op = true)
    (hst : ∀ d ∈ st.donations, d.id = id → d.status ≠ "pending") :
    ∀ d ∈ (applyOp st op).donations, d.id = id → d.status ≠ "pending" := by
  intro d hd hid
  cases op with
  | edit eid body h =>
    simp only [applyOp, editDonationHandler] at hd
    split at hd
    · exact hst d hd hid
    · simp only [createLog, List.mem_map] at hd
      obtain ⟨d₀, hd₀, rfl⟩ := hd
      by_cases he : (d₀.id == eid) = true
      · rw [if_pos he] at hid ⊢
        have hid₀ : d₀.id = id := hid
        have hs₀ := hst d₀ hd₀ hid₀
        simp only [applyUpdate]
        cases hb : body.status with
        | none => exact hs₀
        | some s =>
          simp only [benignOp, hb, bne_iff_ne, ne_eq] at hben
          simp only [Option.getD_some]
          intro hcontra
          exact hben (by rw [hcontra])
      · rw [if_neg he] at hid ⊢
        exact hst d₀ hd₀ hid
  | approve aid h =>
    simp only [applyOp, approveDonationHandler] at hd
    split at hd
    · exact hst d hd hid
    · simp only [createLog, List.mem_map] at hd
      obtain ⟨d₀, hd₀, rfl⟩ := hd
      by_cases he : (d₀.id == aid) = true
      · rw [if_pos he]
        intro hcon
        have hne : ¬ (("approved" : String) = "pending") := by decide
        exact hne (hcon : ("approved" : String) = "pending")
      · rw [if_neg he] at hid ⊢
        exact hst d₀ hd₀ hid

/-- Any sequence of benign operations keeps "the tracked donation is not
pending". -/
theorem foldOps_preserves_not_pending (ops : List DonationOp) (st : ServerState)
    (id : String) (hben : ∀ op ∈ ops, benignOp op = true)
    (hst : ∀ d ∈ st.donations, d.id = id → d.status ≠ "pending") :
    ∀ d ∈ (ops.foldl applyOp st).donations, d.id = id → d.status ≠ "pending" := by
  induction ops generalizing st with
  | nil => exact hst
  | cons op rest ih =>
    simp only [List.foldl_cons]
    exact ih (applyOp st op) (fun o ho => hben o (List.mem_cons_of_mem _ ho))
      (applyOp_preserves_not_pending st op id (hben op (List.mem_cons_self _ _)) hst)

/-- C9 amended: once a donation is approved, no sequence of approve
operations and edit operations whose body does not carry `status: 'pending'`
ever returns it to pending.  (An edit request whose body does carry
`status: 'pending'` reverts it — the counterexample.) -/
theorem approval_one_way_amended (ops : List DonationOp) (st : ServerState) (id : String)
    (hben : ∀ op ∈ ops, benignOp op = true)
    (hinit : ∀ d ∈ st.donations, d.id = id → d.status = "approved") :
    ∀ d ∈ (ops.foldl applyOp st).donations, d.id = id → d.status ≠ "pending" :=
  foldOps_preserves_not_pending ops st id hben
    (fun d hd hid => by rw [hinit d hd hid]; decide)

/-- Witness for C9's amended statement: after an edit of the amount and an
approve, the stored donation is still not pending. -/
theorem approval_one_way_amended_witness :
    (⟨"d1", "Donor", some 777, some "2024-01-01", some "c1", "", "approved"⟩ :
        DonationDoc).status ≠ "pending" :=
  approval_one_way_amended
    [DonationOp.edit "d1" ⟨none, some 777, none, none, none, none⟩ ⟨none, none⟩,
     DonationOp.approve "d1" ⟨none, none⟩]
    ⟨[⟨"d1", "Donor", some 100, some "2024-01-01", some "c1", "", "approved"⟩], [], []⟩
    "d1" (by decide) (by decide)
    ⟨"d1", "Donor", some 777, some "2024-01-01", some "c1", "", "approved"⟩
    (by decide) (by decide)

/-! ### Category move-up / move-down (C6) -/

/-- A strictly sorted category list is fixed by `sortByOrder`. -/
theorem sortByOrder_of_sorted (cats : List Category)
    (h : cats.Pairwise (fun a b => a.order < b.order)) : sortByOrder cats = cats :=
  List.Sorted.insertionSort_eq (h.imp (fun hab => le_of_lt hab))

/-- Strict sortedness of a category list is strict sortedness of its order
keys. -/
theorem pairwise_lt_iff_map (l : List Category) :
    l.Pairwise (fun a b => a.order < b.order) ↔
      (l.map (·.order)).Pairwise (· < ·) :=
  (List.pairwise_map).symm

/-- `findIdx?` skips a prefix on which the predicate fails. -/
theorem findIdx?_skip {α : Type} (p : α → Bool) (l₁ l₂ : List α) (i : Nat)
    (h : ∀ a ∈ l₁, p a = false) :
    List.findIdx? p (l₁ ++ l₂) i = List.findIdx? p l₂ (i + l₁.length) := by
  induction l₁ generalizing i with
  | nil => simp
  | cons a as ih =>
    simp only [List.cons_append, List.findIdx?_cons, h a (List.mem_cons_self a as),
      Bool.false_eq_true, if_false]
    rw [ih (i + 1) (fun b hb => h b (List.mem_cons_of_mem a hb))]
    congr 1
    simp only [List.length_cons]
    omega

/-- `findIdx?` finds the first hit. -/
theorem findIdx?_first_hit {α : Type} (p : α → Bool) (l₁ l₂ : List α) (x : α)
    (h : ∀ a ∈ l₁, p a = false) (hx : p x = true) :
    List.findIdx? p (l₁ ++ x :: l₂) = some l₁.length := by
  rw [findIdx?_skip p l₁ _ 0 h, List.findIdx?_cons, hx]
  simp

/-- `getElem?` into the suffix of an append. -/
theorem getElem?_append_mid {α : Type} (l₁ l₂ : List α) (k : Nat) :
    (l₁ ++ l₂)[l₁.length + k]? = l₂[k]? := by
  rw [List.getElem?_append_right (Nat.le_add_right _ _)]
  congr 1
  omega

/-- A map that fixes every element of a list fixes the list. -/
theorem map_eq_self_of_fix {α : Type} (f : α → α) (l : List α)
    (h : ∀ a ∈ l, f a = a) : l.map f = l := by
  induction l with
  | nil => rfl
  | cons a as ih =>
    rw [List.map_cons, h a (List.mem_cons_self a as),
      ih (fun b hb => h b (List.mem_cons_of_mem a hb))]

/-- Distinct-id facts for a list split around two adjacent elements. -/
theorem ids_facts (l₁ l₂ : List Category) (p x : Category)
    (hids : ((l₁ ++ p :: x :: l₂).map (·.id)).Nodup) :
    p.id ≠ x.id ∧ (∀ c ∈ l₁, c.id ≠ p.id ∧ c.id ≠ x.id) ∧
      (∀ c ∈ l₂, p.id ≠ c.id ∧ x.id ≠ c.id) := by
  have hpw : (l₁ ++ p :: x :: l₂).Pairwise (fun a b => a.id ≠ b.id) :=
    List.pairwise_map.mp hids
  rw [List.pairwise_append] at hpw
  obtain ⟨-, h₂, hbet⟩ := hpw
  rw [List.pairwise_cons] at h₂
  obtain ⟨hp, h₃⟩ := h₂
  rw [List.pairwise_cons] at h₃
  obtain ⟨hx, -⟩ := h₃
  refine ⟨hp x (List.mem_cons_self _ _), ?_, ?_⟩
  · intro c hc
    exact ⟨hbet c hc p (List.mem_cons_self _ _),
      hbet c hc x (List.mem_cons_of_mem _ (List.mem_cons_self _ _))⟩
  · intro c hc
    exact ⟨hp c (List.mem_cons_of_mem _ hc), hx c hc⟩

/-- Applying the two-assignment order swap of the reorder loop to a list
split around the two targeted adjacent elements. -/
theorem applyOrders_swap (l₁ l₂ : List Category) (p x : Category)
    (hids : ((l₁ ++ p :: x :: l₂).map (·.id)).Nodup) (o₁ o₂ : Int) :
    applyOrders (l₁ ++ p :: x :: l₂) [(x.id, o₁), (p.id, o₂)] =
      l₁ ++ { p with order := o₂ } :: { x with order := o₁ } :: l₂ := by
  obtain ⟨hpx, hl₁, hl₂⟩ := ids_facts l₁ l₂ p x hids
  simp only [applyOrders, List.foldl_cons, List.foldl_nil]
  rw [List.map_append, List.map_cons, List.map_cons]
  rw [map_eq_self_of_fix _ l₁ (fun c hc => by simp [(hl₁ c hc).2])]
  rw [map_eq_self_of_fix _ l₂ (fun c hc => by
    have hxc := (hl₂ c hc).2
    simp only [ite_eq_right_iff, beq_iff_eq]
    intro hcon
    exact absurd hcon.symm hxc)]
  have hfp : (if p.id == x.id then { p with order := o₁ } else p) = p := by
    simp [hpx]
  have hfx : (if x.id == x.id then { x with order := o₁ } else x) =
      { x with order := o₁ } := by
    simp
  rw [hfp, hfx]
  rw [List.map_append, List.map_cons, List.map_cons]
  rw [map_eq_self_of_fix _ l₁ (fun c hc => by simp [(hl₁ c hc).1])]
  rw [map_eq_self_of_fix _ l₂ (fun c hc => by
    have hpc := (hl₂ c hc).1
    simp only [ite_eq_right_iff, beq_iff_eq]
    intro hcon
    exact absurd hcon.symm hpc)]
  have hgp : (if p.id == p.id then { p with order := o₂ } else p) =
      { p with order := o₂ } := by
    simp
  have hgx : (if ({ x with order := o₁ } : Category).id == p.id then
      { ({ x with order := o₁ } : Category) with order := o₂ }
      else { x with order := o₁ }) = { x with order := o₁ } := by
    simp [show x.id ≠ p.id from fun hcon => hpx hcon.symm]
  rw [hgp, hgx]

/-- `moveCategoryUp` on a sorted list with distinct ids and distinct orders:
targeting the element after the split point swaps the two order keys. -/
theorem moveCategoryUp_swap (l₁ l₂ : List Category) (p x : Category)
    (hsort : (l₁ ++ p :: x :: l₂).Pairwise (fun a b => a.order < b.order))
    (hids : ((l₁ ++ p :: x :: l₂).map (·.id)).Nodup) :
    moveCategoryUp (l₁ ++ p :: x :: l₂) x.id =
      l₁ ++ { p with order := x.order } :: { x with order := p.order } :: l₂ := by
  obtain ⟨hpx, hl₁, -⟩ := ids_facts l₁ l₂ p x hids
  have hfind : List.findIdx? (fun c => c.id == x.id) (l₁ ++ p :: x :: l₂) =
      some (l₁.length + 1) := by
    have h' : ∀ a ∈ l₁ ++ [p], (fun c : Category => c.id == x.id) a = false := by
      intro a ha
      rcases List.mem_append.mp ha with h1 | h1
      · simp [(hl₁ a h1).2]
      · rw [List.mem_singleton] at h1
        subst h1
        simp [hpx]
    have := findIdx?_first_hit (fun c : Category => c.id == x.id) (l₁ ++ [p]) l₂ x h'
      (by simp)
    simp only [List.append_assoc, List.singleton_append, List.length_append,
      List.length_singleton] at this
    exact this
  have hget1 : (l₁ ++ p :: x :: l₂)[l₁.length]? = some p := by
    have := getElem?_append_mid l₁ (p :: x :: l₂) 0
    simpa using this
  have hget2 : (l₁ ++ p :: x :: l₂)[l₁.length + 1]? = some x := by
    have := getElem?_append_mid l₁ (p :: x :: l₂) 1
    simpa using this
  simp only [moveCategoryUp, sortByOrder_of_sorted _ hsort, hfind, hget1, hget2]
  exact applyOrders_swap l₁ l₂ p x hids p.order x.order

/-- Uniqueness of sorting when the order keys are distinct: `sortByOrder`
sends any permutation of a strictly sorted list to that list. -/
theorem sortByOrder_eq_of_sorted_perm (cats target : List Category)
    (hperm : cats.Perm target)
    (htarget : target.Pairwise (fun a b => a.order < b.order))
    (hnodup : (cats.map (·.order)).Nodup) :
    sortByOrder cats = target := by
  have hp1 : (sortByOrder cats).Perm cats := List.perm_insertionSort _ cats
  have hle : (sortByOrder cats).Pairwise (fun a b => a.order ≤ b.order) :=
    List.sorted_insertionSort _ cats
  have hnodup' : ((sortByOrder cats).map (·.order)).Nodup :=
    ((hp1.map (·.order)).symm).nodup hnodup
  have hne : (sortByOrder cats).Pairwise (fun a b => a.order ≠ b.order) :=
    List.pairwise_map.mp hnodup'
  have hlt : (sortByOrder cats).Pairwise (fun a b => a.order < b.order) :=
    (hle.and hne).imp (fun h => lt_of_le_of_ne h.1 h.2)
  exact List.eq_of_perm_of_sorted (hp1.trans hperm) hlt htarget

/-- `moveCategoryDown` on the state left by the move-up swap restores the
original list. -/
theorem moveCategoryDown_swap_back (l₁ l₂ : List Category) (p x : Category)
    (hsort : (l₁ ++ p :: x :: l₂).Pairwise (fun a b => a.order < b.order))
    (hids : ((l₁ ++ p :: x :: l₂).map (·.id)).Nodup) :
    moveCategoryDown
        (l₁ ++ { p with order := x.order } :: { x with order := p.order } :: l₂) x.id =
      l₁ ++ p :: x :: l₂ := by
  obtain ⟨hpx, hl₁, hl₂⟩ := ids_facts l₁ l₂ p x hids
  have hids' : ((l₁ ++ { p with order := x.order } :: { x with order := p.order } :: l₂).map
      (·.id)).Nodup := by
    have : (l₁ ++ { p with order := x.order } :: { x with order := p.order } :: l₂).map
        (·.id) = (l₁ ++ p :: x :: l₂).map (·.id) := by
      simp
    rw [this]
    exact hids
  have hordsrc : ((l₁ ++ { p with order := x.order } :: { x with order := p.order } :: l₂).map
      (·.order)).Nodup := by
    have horig : ((l₁ ++ p :: x :: l₂).map (·.order)).Nodup :=
      ((pairwise_lt_iff_map _).mp hsort).imp (fun hab => ne_of_lt hab)
    have hpm : ((l₁ ++ p :: x :: l₂).map (·.order)).Perm
        ((l₁ ++ { p with order := x.order } :: { x with order := p.order } :: l₂).map
          (·.order)) := by
      simp only [List.map_append, List.map_cons]
      exact List.Perm.append_left _ (List.Perm.swap _ _ _)
    exact hpm.nodup horig
  have hperm : (l₁ ++ { p with order := x.order } :: { x with order := p.order } :: l₂).Perm
      (l₁ ++ { x with order := p.order } :: { p with order := x.order } :: l₂) :=
    List.Perm.append_left _ (List.Perm.swap _ _ _)
  have htarget : (l₁ ++ { x with order := p.order } :: { p with order := x.order } :: l₂).Pairwise
      (fun a b => a.order < b.order) := by
    rw [pairwise_lt_iff_map]
    have hmap_eq : (l₁ ++ { x with order := p.order } :: { p with order := x.order } :: l₂).map
        (·.order) = (l₁ ++ p :: x :: l₂).map (·.order) := by
      simp
    rw [hmap_eq]
    exact (pairwise_lt_iff_map _).mp hsort
  have hsorted : sortByOrder
      (l₁ ++ { p with order := x.order } :: { x with order := p.order } :: l₂) =
      l₁ ++ { x with order := p.order } :: { p with order := x.order } :: l₂ :=
    sortByOrder_eq_of_sorted_perm _ _ hperm htarget hordsrc
  have hfind : List.findIdx? (fun c => c.id == x.id)
      (l₁ ++ { x with order := p.order } :: { p with order := x.order } :: l₂) =
      some l₁.length := by
    exact findIdx?_first_hit _ l₁ _ _ (fun a ha => by simp [(hl₁ a ha).2]) (by simp)
  have hlen : ¬ ((l₁ ++ { x with order := p.order } :: { p with order := x.order } :: l₂).length
      ≤ l₁.length + 1) := by
    simp only [List.length_append, List.length_cons]
    omega
  have hget1 : (l₁ ++ { x with order := p.order } :: { p with order := x.order } :: l₂)[l₁.length]? =
      some { x with order := p.order } := by
    have := getElem?_append_mid l₁
      ({ x with order := p.order } :: { p with order := x.order } :: l₂) 0
    simpa using this
  have hget2 : (l₁ ++ { x with order := p.order } :: { p with order := x.order } :: l₂)[l₁.length + 1]? =
      some { p with order := x.order } := by
    have := getElem?_append_mid l₁
      ({ x with order := p.order } :: { p with order := x.order } :: l₂) 1
    simpa using this
  simp only [moveCategoryDown, hsorted, hfind, hlen, if_false, hget1, hget2]
  have happ := applyOrders_swap l₁ l₂ { p with order := x.order } { x with order := p.order }
    hids' x.order p.order
  rw [happ]

/-- C6: on a category list ordered ascending with distinct order keys (and
distinct ids), move-up on the first element is a no-op, move-down on the
last element is a no-op, and move-up followed by move-down on any element at
index i > 0 restores the original list, each move being an exact two-element
exchange of order keys. -/
theorem category_move_spec (cats : List Category)
    (hsort : cats.Pairwise (fun a b => a.order < b.order))
    (hids : (cats.map (·.id)).Nodup) :
    (∀ c₀ rest, cats = c₀ :: rest → moveCategoryUp cats c₀.id = cats)
  ∧ (∀ init c₉, cats = init ++ [c₉] → moveCategoryDown cats c₉.id = cats)
  ∧ (∀ l₁ p x l₂, cats = l₁ ++ p :: x :: l₂ →
      moveCategoryDown (moveCategoryUp cats x.id) x.id = cats) := by
  refine ⟨?_, ?_, ?_⟩
  · intro c₀ rest hcats
    subst hcats
    simp only [moveCategoryUp, sortByOrder_of_sorted _ hsort, List.findIdx?_cons]
    simp
  · intro init c₉ hcats
    subst hcats
    have hpw : (init ++ [c₉]).Pairwise (fun a b => a.id ≠ b.id) :=
      List.pairwise_map.mp hids
    rw [List.pairwise_append] at hpw
    obtain ⟨-, -, hbet⟩ := hpw
    have hfind : List.findIdx? (fun c => c.id == c₉.id) (init ++ [c₉]) =
        some init.length :=
      findIdx?_first_hit _ init [] c₉
        (fun a ha => by simp [hbet a ha c₉ (List.mem_singleton_self _)]) (by simp)
    have hlen : (init ++ [c₉]).length ≤ init.length + 1 := by
      simp
    simp only [moveCategoryDown, sortByOrder_of_sorted _ hsort, hfind, hlen, if_true]
  · intro l₁ p x l₂ hcats
    subst hcats
    rw [moveCategoryUp_swap l₁ l₂ p x hsort hids,
      moveCategoryDown_swap_back l₁ l₂ p x hsort hids]

/-- Witness for C6 on a concrete three-element category list. -/
theorem category_move_spec_witness :
    moveCategoryUp [⟨"a", "A", 1⟩, ⟨"b", "B", 2⟩, ⟨"c", "C", 3⟩] "a" =
      [⟨"a", "A", 1⟩, ⟨"b", "B", 2⟩, ⟨"c", "C", 3⟩]
  ∧ moveCategoryDown [⟨"a", "A", 1⟩, ⟨"b", "B", 2⟩, ⟨"c", "C", 3⟩] "c" =
      [⟨"a", "A", 1⟩, ⟨"b", "B", 2⟩, ⟨"c", "C", 3⟩]
  ∧ moveCategoryDown (moveCategoryUp [⟨"a", "A", 1⟩, ⟨"b", "B", 2⟩, ⟨"c", "C", 3⟩] "b") "b" =
      [⟨"a", "A", 1⟩, ⟨"b", "B", 2⟩, ⟨"c", "C", 3⟩] :=
  ⟨(category_move_spec _ (by decide) (by decide)).1
      ⟨"a", "A", 1⟩ [⟨"b", "B", 2⟩, ⟨"c", "C", 3⟩] rfl,
   (category_move_spec _ (by decide) (by decide)).2.1
      [⟨"a", "A", 1⟩, ⟨"b", "B", 2⟩] ⟨"c", "C", 3⟩ rfl,
   (category_move_spec _ (by decide) (by decide)).2.2
      [] ⟨"a", "A", 1⟩ ⟨"b", "B", 2⟩ [⟨"c", "C", 3⟩] rfl⟩

end TemplTracker
